import Mathlib

/-!
Verification development for the SimpleManus context subsystem.

This file shallowly embeds the two stores of the repository that carry the
specified contracts:

* the SketchPad store, `RedisFileSketchPadBackend` in
  `src/context/sketch_pad.py`, together with its item model
  `SketchPadItem` from `src/context/schemas.py`;
* the conversation History store, `ConversationContext` in
  `src/context/context.py`;
* the `Message` validation logic of `src/context/schemas.py`.

Modelling conventions:

* Wall-clock instants (`datetime.now()`) are natural numbers threaded
  explicitly through every operation as a `now : Nat` argument.
* The Redis keyspace under the namespace prefix `sketch_pad:{id}:` is split
  into its two disjoint families: plain string keys holding one serialized
  `SketchPadItem` each, and the `tag:*` set keys forming the tag index.  The
  JSON round trip `model_dump_json` / `model_validate_json` is faithful for
  pydantic models and is modelled as the identity, so a Redis string entry is
  modelled directly as the item it holds plus the Redis-level expiry deadline
  installed by `EXPIRE`.  A plain Redis `SET` removes any existing TTL of the
  written key (no `KEEPTTL` is ever passed in the source), which the model
  reflects by resetting the stored deadline to `none`.
* Python `Any` payloads are restricted to scalar JSON values; no specified
  behaviour depends on structured payloads.  Python `None` is `PadValue.vNull`.
* The md5 content digest of `_get_content_hash` is modelled as an injective
  encoding of the payload; no claim depends on the digest text itself.
-/

/-! ## Association-list primitives standing for the Redis keyspace -/

/-- Lookup in an association list (first binding wins, as in a keyspace). -/
def lookupAssoc {α : Type} (l : List (String × α)) (k : String) : Option α :=
  match l with
  | [] => none
  | (k1, v) :: rest => if k1 = k then some v else lookupAssoc rest k

/-- Redis `SET`: replace the binding in place if present, else append. -/
def insertAssoc {α : Type} (l : List (String × α)) (k : String) (v : α) :
    List (String × α) :=
  match l with
  | [] => [(k, v)]
  | (k1, v1) :: rest =>
      if k1 = k then (k1, v) :: rest else (k1, v1) :: insertAssoc rest k v

/-- Redis `DEL`: remove every binding of the key. -/
def removeAssoc {α : Type} (l : List (String × α)) (k : String) :
    List (String × α) :=
  l.filter (fun p => p.1 ≠ k)

/-! ## SketchPad data model (`SketchPadItem`, `src/context/schemas.py`) -/

/-- Scalar JSON payload standing for the Python `Any` value of an item. -/
inductive PadValue where
  | vNull : PadValue
  | vStr : String → PadValue
  | vInt : Int → PadValue
  | vBool : Bool → PadValue
deriving DecidableEq, Repr

/-- `_get_content_hash`: md5 over the sorted-key JSON dump of the value,
modelled as an injective textual encoding of the scalar payload. -/
def getContentHash (v : PadValue) : String :=
  match v with
  | .vNull => "null"
  | .vStr s => "str:" ++ s
  | .vInt n => "int:" ++ toString n
  | .vBool b => "bool:" ++ toString b

/-- `SketchPadItem` of `src/context/schemas.py`.  Python's `Set[str]` of tags
is modelled as a duplicate-free unordered list.  Instants are `Nat`. -/
structure SketchPadItem where
  value : PadValue
  timestamp : Nat
  summary : Option String
  expires_at : Option Nat
  access_count : Nat
  last_accessed : Option Nat
  tags : List String
  content_type : String
  content_hash : Option String
deriving DecidableEq, Repr

/-- `SketchPadItem.is_expired`: strictly past the item-level deadline.  The
backend never consults this predicate; expiry is enforced only through the
Redis key TTL. -/
def SketchPadItem.isExpired (it : SketchPadItem) (now : Nat) : Bool :=
  match it.expires_at with
  | none => false
  | some e => e < now

/-- The Redis keyspace owned by one `RedisFileSketchPadBackend`: data keys
(item plus Redis expiry deadline) and the `tag:*` set keys. -/
structure PadState where
  items : List (String × (SketchPadItem × Option Nat))
  tagIndex : List (String × List String)
deriving DecidableEq, Repr

def emptyPad : PadState := { items := [], tagIndex := [] }

/-- Redis lazy expiry: a string entry is alive while the clock has not
reached its deadline. -/
def entryLive (now : Nat) (exp : Option Nat) : Bool :=
  match exp with
  | none => true
  | some e => now < e

/-- Redis `SMEMBERS` on a tag set key (empty for a missing key). -/
def smembers (s : PadState) (tag : String) : List String :=
  (lookupAssoc s.tagIndex tag).getD []

/-- Redis `SADD`: set-semantics insertion into a tag set key. -/
def saddTag (idx : List (String × List String)) (tag key : String) :
    List (String × List String) :=
  let cur := (lookupAssoc idx tag).getD []
  if key ∈ cur then idx else insertAssoc idx tag (cur ++ [key])

/-- Redis `SREM`: remove a member from a tag set key. -/
def sremTag (idx : List (String × List String)) (tag key : String) :
    List (String × List String) :=
  match lookupAssoc idx tag with
  | none => idx
  | some cur => insertAssoc idx tag (cur.filter (fun k => k ≠ key))

/-- Python truthiness of the `ttl : Optional[int]` argument: `None` and `0`
are falsy (`if ttl:`), so neither installs an expiry. -/
def ttlTruthy (ttl : Option Nat) : Bool :=
  ttl.getD 0 ≠ 0

/-! ## SketchPad operations (`RedisFileSketchPadBackend`) -/

/-- `set_item` (`src/context/sketch_pad.py`, lines 219-264): build the item
(the pydantic validators fill `last_accessed := now` and
`access_count := 0`), `SET` it under the key (dropping any previous TTL),
re-arm the TTL when the argument is truthy, and `SADD` the key under each
given tag.  Returns the key unchanged. -/
def set_item (s : PadState) (now : Nat) (key : String) (value : PadValue)
    (ttl : Option Nat) (summary : Option String) (tags : List String) :
    String × PadState :=
  let item : SketchPadItem :=
    { value := value
      timestamp := now
      summary := summary
      expires_at := if ttlTruthy ttl then some (now + ttl.getD 0) else none
      access_count := 0
      last_accessed := some now
      tags := tags
      content_type := "text"
      content_hash := some (getContentHash value) }
  let expiry : Option Nat := if ttlTruthy ttl then some (now + ttl.getD 0) else none
  let items1 := insertAssoc s.items key (item, expiry)
  let tagIdx :=
    if tags.isEmpty then s.tagIndex
    else tags.foldl (fun idx t => saddTag idx t key) s.tagIndex
  (key, { items := items1, tagIndex := tagIdx })

/-- `get_item` (`src/context/sketch_pad.py`, lines 266-288): a Redis `GET`
subject to lazy expiry; on a hit the access accounting is bumped and the item
is written back with a plain `SET`, which erases the remaining TTL of the
key. -/
def get_item (s : PadState) (now : Nat) (key : String) :
    Option SketchPadItem × PadState :=
  match lookupAssoc s.items key with
  | none => (none, s)
  | some (it, exp) =>
      if entryLive now exp then
        let bumped : SketchPadItem :=
          { it with access_count := it.access_count + 1, last_accessed := some now }
        (some bumped, { s with items := insertAssoc s.items key (bumped, none) })
      else
        (none, s)

/-- `get_value`: unwrap of `get_item`, with Python `None` (here `vNull`)
standing for the absent case. -/
def get_value (s : PadState) (now : Nat) (key : String) : PadValue × PadState :=
  match get_item s now key with
  | (some it, s1) => (it.value, s1)
  | (none, s1) => (PadValue.vNull, s1)

/-- `exists` (Redis `EXISTS`, subject to lazy expiry). -/
def exists_key (s : PadState) (now : Nat) (key : String) : Bool :=
  match lookupAssoc s.items key with
  | some (_, exp) => entryLive now exp
  | none => false

/-- Redis `KEYS` over the data keys of the pad (the `:tag:` index keys are
filtered out by every caller in the source; here they live apart). -/
def liveKeys (s : PadState) (now : Nat) : List String :=
  (s.items.filter (fun p => entryLive now p.2.2)).map (fun p => p.1)

/-- `get_statistics` `total_items` (`src/context/sketch_pad.py`, lines
505-552): the number of non-expired data keys.  The remaining statistics
fields and the access bumps of its internal `get_item` loop are not modelled;
no claim depends on them. -/
def statistics_total_items (s : PadState) (now : Nat) : Nat :=
  (liveKeys s now).length

/-- `get_statistics` reports the constant `max_items=1000` regardless of the
actual content (`src/context/sketch_pad.py`, line 545). -/
def statistics_max_items : Nat := 1000

/-- `delete` (`src/context/sketch_pad.py`, lines 374-388): read the item
(through `get_item`, with its side effects), `SREM` the key from the index
entry of each of its current tags, then `DEL` the data key. -/
def delete_item (s : PadState) (now : Nat) (key : String) : Bool × PadState :=
  let (itemOpt, s1) := get_item s now key
  let s2 :=
    match itemOpt with
    | some it =>
        if it.tags.isEmpty then s1
        else { s1 with tagIndex := it.tags.foldl (fun idx t => sremTag idx t key) s1.tagIndex }
    | none => s1
  match lookupAssoc s2.items key with
  | some (_, exp) =>
      if entryLive now exp then (true, { s2 with items := removeAssoc s2.items key })
      else (false, s2)
  | none => (false, s2)

/-! ## Tag search (`search_by_tags`, `src/context/sketch_pad.py` 296-332)

The two loops call `get_item` on every candidate key, so the pad state is
threaded through the recursion exactly as the side effects happen in the
source. -/

/-- `match_all` branch body: filter the candidate keys of the first query tag
by `tags.issubset(item.tags)` on the freshly read item. -/
def searchTagsAllGo (now : Nat) (q : List String) :
    List String → PadState → List (String × SketchPadItem) →
    List (String × SketchPadItem) × PadState
  | [], s, acc => (acc, s)
  | k :: ks, s, acc =>
      match get_item s now k with
      | (some it, s1) =>
          if q.all (fun t => t ∈ it.tags) then
            searchTagsAllGo now q ks s1 (acc ++ [(k, it)])
          else
            searchTagsAllGo now q ks s1 acc
      | (none, s1) => searchTagsAllGo now q ks s1 acc

/-- `match_any` inner loop over the members of one tag's index entry; a pair
is appended unless the identical `(key, item)` pair is already present. -/
def searchTagsAnyInner (now : Nat) :
    List String → PadState → List (String × SketchPadItem) →
    List (String × SketchPadItem) × PadState
  | [], s, acc => (acc, s)
  | k :: ks, s, acc =>
      match get_item s now k with
      | (some it, s1) =>
          if (k, it) ∈ acc then searchTagsAnyInner now ks s1 acc
          else searchTagsAnyInner now ks s1 (acc ++ [(k, it)])
      | (none, s1) => searchTagsAnyInner now ks s1 acc

/-- `match_any` outer loop over the query tags. -/
def searchTagsAnyGo (now : Nat) :
    List String → PadState → List (String × SketchPadItem) →
    List (String × SketchPadItem) × PadState
  | [], s, acc => (acc, s)
  | t :: ts, s, acc =>
      let (acc1, s1) := searchTagsAnyInner now (smembers s t) s acc
      searchTagsAnyGo now ts s1 acc1

/-- `search_by_tags`: with `match_all` an empty query returns nothing at
once; otherwise the candidates are the index members of the first query tag.
Without `match_all` the union over the query tags is scanned. -/
def search_by_tags (s : PadState) (now : Nat) (q : List String)
    (matchAll : Bool) : List (String × SketchPadItem) × PadState :=
  if matchAll then
    match q with
    | [] => ([], s)
    | t :: _ => searchTagsAllGo now q (smembers s t) s []
  else
    searchTagsAnyGo now q s []

/-! ## Serialization (`serialize` / `deserialize`,
`src/context/sketch_pad.py` 425-471) -/

/-- `serialize` loop body: read every listed data key through `get_item`
(bumping its access accounting and erasing its TTL) and collect the snapshot
entries in scan order. -/
def serializeGo (now : Nat) :
    List String → PadState → List (String × SketchPadItem) →
    List (String × SketchPadItem) × PadState
  | [], s, acc => (acc, s)
  | k :: ks, s, acc =>
      match get_item s now k with
      | (some it, s1) => serializeGo now ks s1 (acc ++ [(k, it)])
      | (none, s1) => serializeGo now ks s1 acc

/-- `serialize`: snapshot of all live items, keyed by original key
(the `sketch_pad_id` and timestamp header fields carry no contract). -/
def serialize (s : PadState) (now : Nat) :
    List (String × SketchPadItem) × PadState :=
  serializeGo now (liveKeys s now) s []

/-- `deserialize`: write every snapshot item back with a plain `SET` (hence
without any Redis TTL) and rebuild the tag index from the item tags. -/
def deserialize (s : PadState) (snap : List (String × SketchPadItem)) :
    PadState :=
  snap.foldl
    (fun st p =>
      let st1 : PadState := { st with items := insertAssoc st.items p.1 (p.2, none) }
      if p.2.tags.isEmpty then st1
      else { st1 with tagIndex := p.2.tags.foldl (fun idx t => saddTag idx t p.1) st1.tagIndex })
    s

/-! ## Observables used by the theorems -/

/-- Liveness of a key as Redis reports it. -/
def isLive (s : PadState) (now : Nat) (key : String) : Bool :=
  exists_key s now key

/-- The tag set of the live item under a key, `none` when absent/expired. -/
def liveTags (s : PadState) (now : Nat) (key : String) : Option (List String) :=
  match lookupAssoc s.items key with
  | some (it, exp) => if entryLive now exp then some it.tags else none
  | none => none

/-- Consistency of the tag index with the stored items: a key is a member of
a tag's index entry exactly when its stored item currently carries that tag.
This holds for stores built by fresh-key writes and deletes, and is broken by
overwrites that change a key's tags (the source never cleans the old tags). -/
def tagConsistent (s : PadState) : Prop :=
  ∀ t k, k ∈ smembers s t ↔
    ∃ p, lookupAssoc s.items k = some p ∧ t ∈ p.1.tags

/-! ## Message model and validation (`Message`, `src/context/schemas.py`) -/

/-- The `role` literal of a `Message`. -/
inductive Role where
  | system : Role
  | user : Role
  | assistant : Role
  | tool : Role
deriving DecidableEq, Repr

/-- `FunctionCall` of `src/context/schemas.py`. -/
structure FunctionCall where
  name : String
  arguments : String
deriving DecidableEq, Repr

/-- `ToolCall` of `src/context/schemas.py` (the constant literal field
`type = "function"` is elided). -/
structure ToolCall where
  id : String
  function : FunctionCall
deriving DecidableEq, Repr

/-- A validated `Message`.  `content` is a string or null (the structured
content-block alternative is elided: the validator only tests it against
null).  The optional `name` field carries its own pattern validation and is
unrelated to the consistency rules, so it is elided as well. -/
structure Message where
  role : Role
  content : Option String
  tool_calls : Option (List ToolCall)
  tool_call_id : Option String
  timestamp : Option String
deriving DecidableEq, Repr

/-- Python truthiness of the `tool_calls` field: null and the empty list are
falsy. -/
def toolCallsTruthy (tc : Option (List ToolCall)) : Bool :=
  match tc with
  | none => false
  | some l => !l.isEmpty

/-- Python truthiness of `tool_call_id`: null and the empty string are
falsy. -/
def toolCallIdTruthy (id : Option String) : Bool :=
  match id with
  | none => false
  | some s => !s.isEmpty

/-- Constructing a `Message` runs the pydantic model validator
`validate_tool_message_consistency` (`src/context/schemas.py`, lines 74-85);
a violated rule raises, modelled as `Except.error` with the raised text. -/
def mkMessage (role : Role) (content : Option String)
    (tool_calls : Option (List ToolCall)) (tool_call_id : Option String)
    (timestamp : Option String) : Except String Message :=
  if role = Role.assistant ∧ toolCallsTruthy tool_calls ∧ content ≠ none then
    Except.error "When role is assistant and tool_calls exist, content must be None."
  else if role = Role.tool ∧ ¬ toolCallIdTruthy tool_call_id then
    Except.error "When role is tool, tool_call_id must be provided."
  else
    Except.ok
      { role := role, content := content, tool_calls := tool_calls,
        tool_call_id := tool_call_id, timestamp := timestamp }

/-! ## Conversation history (`ConversationContext`, `src/context/context.py`)

History entries are the plain dicts the source appends: role, content, a
stamped time, and the optional metadata dict (only ever
`{"type": "summary"}`, modelled as an optional marker string).  The LLM
summarizer is an opaque function; `llm_interface = None` is `summarizer =
none`.  File persistence (`_save_context`) has no bearing on any claim and is
not modelled. -/

structure HMsg where
  role : String
  content : String
  timestamp : Nat
  meta : Option String
deriving DecidableEq, Repr

/-- A message of the external chat-turn list handed to
`sync_with_external_history`: a role/content dict without metadata. -/
structure ExtMsg where
  role : String
  content : String
deriving DecidableEq, Repr

/-- The mutable state of the `ConversationContext` singleton. -/
structure ConvContext where
  maxHistoryLength : Nat
  summarizer : Option (List HMsg → String)
  saveToFile : Bool
  contextFile : String
  history : List HMsg
  conversationSummary : Option String
  totalMessages : Nat
  lastActivity : Nat

/-- The synthetic continuity message text of `_auto_memory_manage`
(`src/context/context.py`, line 216). -/
def continuityContent (summary : String) : String :=
  "During the conversation happened just a moment ago, " ++ summary ++
  ".\nNow you are supposed to continue to assist the user to achieve their target."

/-- `_auto_memory_manage` (`src/context/context.py`, lines 196-219): when the
history exceeds `max_history_length` and an LLM interface is configured,
summarize, append the new summary to any prior summary text, clear the
history, and re-seed it with one synthetic assistant message. -/
def autoMemoryManage (c : ConvContext) (now : Nat) : ConvContext :=
  match c.summarizer with
  | some f =>
      if c.history.length > c.maxHistoryLength then
        let summary := f c.history
        let newSummary :=
          match c.conversationSummary with
          | some old => old ++ "\n\n" ++ summary
          | none => summary
        let newHistory :=
          if c.history.isEmpty then []
          else [{ role := "assistant", content := continuityContent summary,
                  timestamp := now, meta := some "summary" }]
        { c with conversationSummary := some newSummary, history := newHistory }
      else c
  | none => c

/-- `add_message` (`src/context/context.py`, lines 80-107): append the
stamped message, update the session counters, then run the automatic memory
management. -/
def addMessage (c : ConvContext) (now : Nat) (role content : String)
    (meta : Option String) : ConvContext :=
  let c1 : ConvContext :=
    { c with
      history := c.history ++ [{ role := role, content := content,
                                 timestamp := now, meta := meta }]
      totalMessages := c.totalMessages + 1
      lastActivity := now }
  autoMemoryManage c1 now

/-- `get_context_summary` (`src/context/context.py`, lines 182-184). -/
def getContextSummary (c : ConvContext) : Option String :=
  c.conversationSummary

/-- `sync_with_external_history` (`src/context/context.py`, lines 369-396):
diff the external list against the current history length, append only the
tail positions (each stamped with the current time), then run the automatic
memory management.  The first component returns the list of messages the loop
appended, the direct observable of the sync contract. -/
def syncWithExternal (c : ConvContext) (now : Nat) (external : List ExtMsg) :
    List HMsg × ConvContext :=
  let cur := c.history.length
  let ext := external.length
  let appended :=
    if ext > cur then
      (external.drop cur).map
        (fun m => { role := m.role, content := m.content,
                    timestamp := now, meta := none : HMsg })
    else []
  let c1 : ConvContext :=
    if ext > cur then
      { c with
        history := c.history ++ appended
        totalMessages := cur + appended.length
        lastActivity := now }
    else c
  (appended, autoMemoryManage c1 now)

/-! ## Singleton construction (`ConversationContext.__new__` / `__init__`,
`src/context/context.py` lines 15-74) -/

/-- The constructor arguments of `ConversationContext`. -/
structure CtxArgs where
  summarizer : Option (List HMsg → String)
  maxHistoryLength : Nat
  saveToFile : Bool
  contextFile : Option String

/-- First initialization of the singleton: fresh history and summary
(`_load_context` deliberately loads neither from the file), the context file
defaulting when the argument is falsy (`context_file or ...`). -/
def initConversationContext (args : CtxArgs) (now : Nat) : ConvContext :=
  { maxHistoryLength := args.maxHistoryLength
    summarizer := args.summarizer
    saveToFile := args.saveToFile
    contextFile :=
      match args.contextFile with
      | some s => if s.isEmpty then "context/conversation_history.json" else s
      | none => "context/conversation_history.json"
    history := []
    conversationSummary := none
    totalMessages := 0
    lastActivity := now }

/-- `ConversationContext(...)`: `__new__` returns the class-level instance,
creating it only once; `__init__` returns immediately when `_initialized` is
already set, so every later call leaves the instance untouched and its
arguments are dropped.  The global cell is the class attribute `_instance`. -/
def constructConversationContext (g : Option ConvContext) (args : CtxArgs)
    (now : Nat) : ConvContext × Option ConvContext :=
  match g with
  | some inst => (inst, some inst)
  | none =>
      let inst := initConversationContext args now
      (inst, some inst)

/-- The access-bumped image of the stored item under a key, as produced by a
successful `get_item` at the given instant (proof-side helper; an arbitrary
placeholder is returned for a missing key). -/
def bumpedAt (s : PadState) (now : Nat) (k : String) : SketchPadItem :=
  match lookupAssoc s.items k with
  | some (it, _) =>
      { it with access_count := it.access_count + 1, last_accessed := some now }
  | none =>
      { value := PadValue.vNull, timestamp := 0, summary := none,
        expires_at := none, access_count := 0, last_accessed := none,
        tags := [], content_type := "text", content_hash := none }

/-! ## Basic lemmas about the keyspace primitives -/

theorem lookup_insert_self {α : Type} (l : List (String × α)) (k : String)
    (v : α) : lookupAssoc (insertAssoc l k v) k = some v := by
  induction l with
  | nil => simp [insertAssoc, lookupAssoc]
  | cons hd tl ih =>
      by_cases h : hd.1 = k
      · simp [insertAssoc, lookupAssoc, h]
      · simp [insertAssoc, lookupAssoc, h, ih]

theorem lookup_insert_ne {α : Type} (l : List (String × α)) (k k1 : String)
    (v : α) (h : k1 ≠ k) :
    lookupAssoc (insertAssoc l k v) k1 = lookupAssoc l k1 := by
  induction l with
  | nil => simp [insertAssoc, lookupAssoc, Ne.symm h]
  | cons hd tl ih =>
      by_cases hh : hd.1 = k
      · have hne : ¬ hd.1 = k1 := by rw [hh]; exact Ne.symm h
        simp [insertAssoc, lookupAssoc, hh, hne, Ne.symm h]
      · by_cases hk1 : hd.1 = k1
        · simp [insertAssoc, lookupAssoc, hh, hk1, h]
        · simp [insertAssoc, lookupAssoc, hh, hk1, ih]

/-- The stored entry produced by `set_item`. -/
theorem set_item_state (s : PadState) (now : Nat) (key : String)
    (value : PadValue) (ttl : Option Nat) (summary : Option String)
    (tags : List String) :
    (set_item s now key value ttl summary tags).2.items =
      insertAssoc s.items key
        ({ value := value, timestamp := now, summary := summary,
           expires_at := if ttlTruthy ttl then some (now + ttl.getD 0) else none,
           access_count := 0, last_accessed := some now, tags := tags,
           content_type := "text",
           content_hash := some (getContentHash value) },
         if ttlTruthy ttl then some (now + ttl.getD 0) else none) := rfl

/-- The entry written by `set_item` is alive at the instant of the write. -/
theorem set_item_entry_live (now : Nat) (ttl : Option Nat) :
    entryLive now (if ttlTruthy ttl then some (now + ttl.getD 0) else none)
      = true := by
  by_cases h : ttlTruthy ttl
  · have : ttl.getD 0 ≠ 0 := by simpa [ttlTruthy] using h
    simp [h, entryLive]
    omega
  · simp [h, entryLive]

/-- Replacing or adding one live entry changes the live-entry count by one
exactly when the key was not already alive. -/
theorem filter_length_insert (now : Nat) (k : String)
    (v : SketchPadItem × Option Nat) (hv : entryLive now v.2 = true) :
    ∀ l : List (String × (SketchPadItem × Option Nat)),
    ((insertAssoc l k v).filter (fun p => entryLive now p.2.2)).length =
    (if (match lookupAssoc l k with
         | some (_, exp) => entryLive now exp
         | none => false) = true
     then (l.filter (fun p => entryLive now p.2.2)).length
     else (l.filter (fun p => entryLive now p.2.2)).length + 1) := by
  intro l
  induction l with
  | nil => simp [insertAssoc, lookupAssoc, List.filter, hv]
  | cons hd tl ih =>
      by_cases hk : hd.1 = k
      · by_cases hp : entryLive now hd.2.2 = true
        · simp [insertAssoc, lookupAssoc, hk, hp, hv, List.filter_cons]
        · simp [insertAssoc, lookupAssoc, hk, hp, hv, List.filter_cons]
      · by_cases hp : entryLive now hd.2.2 = true
        · simp [insertAssoc, lookupAssoc, hk, hp, ih, List.filter_cons]
          split <;> omega
        · simp [insertAssoc, lookupAssoc, hk, hp, ih, List.filter_cons]

/-- C1 (amended): `set_item` performs no eviction at all.  No key is ever
removed by a write, the written key is alive afterwards, and the live-item
count grows by one on every write of a not-currently-live key, without any
bound; `get_statistics` reports the constant `max_items = 1000` regardless. -/
theorem set_item_no_eviction (s : PadState) (now : Nat) (key : String)
    (value : PadValue) (ttl : Option Nat) (summary : Option String)
    (tags : List String) :
    (∀ k, isLive s now k = true →
      isLive (set_item s now key value ttl summary tags).2 now k = true) ∧
    isLive (set_item s now key value ttl summary tags).2 now key = true ∧
    statistics_total_items (set_item s now key value ttl summary tags).2 now =
      (if isLive s now key = true
       then statistics_total_items s now
       else statistics_total_items s now + 1) ∧
    statistics_max_items = 1000 := by
  have hlivekey :
      isLive (set_item s now key value ttl summary tags).2 now key = true := by
    simp only [isLive, exists_key, set_item_state, lookup_insert_self]
    exact set_item_entry_live now ttl
  refine ⟨?_, hlivekey, ?_, rfl⟩
  · intro k hk
    by_cases hkey : k = key
    · rw [hkey]; exact hlivekey
    · simpa [isLive, exists_key, set_item_state, lookup_insert_ne _ _ _ _ hkey]
        using hk
  · have := filter_length_insert now key
      (({ value := value, timestamp := now, summary := summary,
          expires_at := if ttlTruthy ttl then some (now + ttl.getD 0) else none,
          access_count := 0, last_accessed := some now, tags := tags,
          content_type := "text",
          content_hash := some (getContentHash value) } : SketchPadItem),
       if ttlTruthy ttl then some (now + ttl.getD 0) else none)
      (set_item_entry_live now ttl) s.items
    simpa [statistics_total_items, liveKeys, isLive, exists_key, set_item_state]
      using this

/-- C1 (counterexample): two writes of distinct keys on an empty pad leave
two live items and remove nothing, so the claimed capacity bound fails
already for a purported `maxItems = 1`; the source has no capacity parameter
and never evicts. -/
theorem capacity_invariant_counterexample :
    statistics_total_items
      ((set_item ((set_item emptyPad 0 "a" (PadValue.vStr "x") none none []).2)
        0 "b" (PadValue.vStr "y") none none []).2) 0 = 2 ∧
    isLive ((set_item ((set_item emptyPad 0 "a" (PadValue.vStr "x") none none []).2)
        0 "b" (PadValue.vStr "y") none none []).2) 0 "a" = true ∧
    isLive ((set_item ((set_item emptyPad 0 "a" (PadValue.vStr "x") none none []).2)
        0 "b" (PadValue.vStr "y") none none []).2) 0 "b" = true ∧
    ¬ (2 ≤ 1) := by decide

/-- C2 (amended): expiry is enforced solely through the Redis key TTL armed
at write time; on a pad where the key is not read between the write and the
query, `get_item` returns the stored value while `now < timestamp + ttl` and
absent from `now ≥ timestamp + ttl` on.  (A successful read in between
rewrites the key without a TTL and cancels the expiry; the item-level
`expires_at` is never consulted.) -/
theorem ttl_expiry_without_intervening_read (s : PadState) (now nowq : Nat)
    (key : String) (value : PadValue) (t : Nat) (summary : Option String)
    (tags : List String) (ht : 0 < t) :
    ((get_item (set_item s now key value (some t) summary tags).2 nowq key).1
        ≠ none ↔ nowq < now + t) ∧
    (get_item (set_item s now key value (some t) summary tags).2 nowq key).1.map
        (fun it => it.value) =
      (if nowq < now + t then some value else none) := by
  have htt : ttlTruthy (some t) = true := by
    simp [ttlTruthy]
    omega
  by_cases hq : nowq < now + t
  · constructor
    · simp [get_item, set_item_state, lookup_insert_self, htt, entryLive, hq]
    · simp [get_item, set_item_state, lookup_insert_self, htt, entryLive, hq]
  · constructor
    · simp [get_item, set_item_state, lookup_insert_self, htt, entryLive, hq]
    · simp [get_item, set_item_state, lookup_insert_self, htt, entryLive, hq]

/-- C2 (witness): a key written at instant 0 with `ttl = 10` is read back at
instant 5. -/
theorem ttl_expiry_without_intervening_read_witness :
    ((get_item (set_item emptyPad 0 "k" (PadValue.vStr "v") (some 10) none []).2
        5 "k").1 ≠ none ↔ (5 : Nat) < 0 + 10) ∧
    (get_item (set_item emptyPad 0 "k" (PadValue.vStr "v") (some 10) none []).2
        5 "k").1.map (fun it => it.value) =
      (if (5 : Nat) < 0 + 10 then some (PadValue.vStr "v") else none) :=
  ttl_expiry_without_intervening_read emptyPad 0 5 "k" (PadValue.vStr "v") 10
    none [] (by decide)

/-- C2 (counterexample): write at 0 with `ttl = 10`, read successfully at 5;
the read rewrites the Redis key without a TTL, so a second read at 20 — past
the claimed expiry instant 10 — still returns the item instead of absent. -/
theorem ttl_expiry_cancelled_by_read_counterexample :
    (get_item (set_item emptyPad 0 "k" (PadValue.vStr "v") (some 10) none []).2
        5 "k").1 ≠ none ∧
    (0 + 10 ≤ 20) ∧
    (get_item
        (get_item (set_item emptyPad 0 "k" (PadValue.vStr "v") (some 10) none []).2
          5 "k").2 20 "k").1 ≠ none := by decide

/-- C3 (amended): `set_item` never auto-suffixes: the returned key is always
exactly the requested key, and a colliding write silently replaces the item
previously stored under that key. -/
theorem set_item_returns_requested_key (s : PadState) (now : Nat)
    (key : String) (value : PadValue) (ttl : Option Nat)
    (summary : Option String) (tags : List String) :
    (set_item s now key value ttl summary tags).1 = key ∧
    ∃ it exp,
      lookupAssoc (set_item s now key value ttl summary tags).2.items key
          = some (it, exp) ∧
      it.value = value ∧ it.timestamp = now ∧ it.tags = tags := by
  refine ⟨rfl, ?_⟩
  exact ⟨_, _, by rw [set_item_state, lookup_insert_self], rfl, rfl, rfl⟩

/-- C3 (counterexample): two writes to the same key "k" with different
values: the second call returns "k" itself (not a fresh suffixed key) and the
pre-existing item is clobbered — a later read sees the second value. -/
theorem set_item_collision_counterexample :
    (set_item ((set_item emptyPad 0 "k" (PadValue.vStr "v1") none none []).2)
        1 "k" (PadValue.vStr "v2") none none []).1 = "k" ∧
    (get_item
        ((set_item ((set_item emptyPad 0 "k" (PadValue.vStr "v1") none none []).2)
          1 "k" (PadValue.vStr "v2") none none []).2) 2 "k").1.map
        (fun it => it.value) = some (PadValue.vStr "v2") := by decide

/-- C8: an assistant message carrying a non-empty tool-call list together
with non-null content is rejected; a tool message without a (truthy)
`tool_call_id` is rejected; and every message that validates satisfies both
consistency rules. -/
theorem message_consistency_validation :
    (∀ (c : String) (tc : ToolCall) (tcs : List ToolCall)
        (tid ts : Option String),
      ∃ e, mkMessage Role.assistant (some c) (some (tc :: tcs)) tid ts
          = Except.error e) ∧
    (∀ (c ts : Option String) (tcl : Option (List ToolCall)),
      ∃ e, mkMessage Role.tool c tcl none ts = Except.error e) ∧
    (∀ (role : Role) (c : Option String) (tcl : Option (List ToolCall))
        (tid ts : Option String) (m : Message),
      mkMessage role c tcl tid ts = Except.ok m →
      ((m.role = Role.assistant ∧ toolCallsTruthy m.tool_calls = true) →
          m.content = none) ∧
      (m.role = Role.tool → toolCallIdTruthy m.tool_call_id = true)) := by
  refine ⟨?_, ?_, ?_⟩
  · intro c tc tcs tid ts
    have hcond : Role.assistant = Role.assistant
        ∧ toolCallsTruthy (some (tc :: tcs)) ∧ (some c : Option String) ≠ none := by
      simp [toolCallsTruthy]
    exact ⟨"When role is assistant and tool_calls exist, content must be None.",
      by simp [mkMessage, hcond]⟩
  · intro c ts tcl
    by_cases h1 : Role.tool = Role.assistant ∧ toolCallsTruthy tcl ∧ c ≠ none
    · exact absurd h1.1 (by simp)
    · have h2 : Role.tool = Role.tool
          ∧ ¬ toolCallIdTruthy (none : Option String) := by
        simp [toolCallIdTruthy]
      exact ⟨"When role is tool, tool_call_id must be provided.",
        by simp [mkMessage, h1, h2]⟩
  · intro role c tcl tid ts m h
    by_cases h1 : role = Role.assistant ∧ toolCallsTruthy tcl ∧ c ≠ none
    · simp [mkMessage, h1] at h
    · by_cases h2 : role = Role.tool ∧ ¬ toolCallIdTruthy tid
      · simp [mkMessage, h1, h2] at h
      · have h2f : ¬ (role = Role.tool ∧ toolCallIdTruthy tid = false) := by
          simpa using h2
        simp [mkMessage, h1, h2f] at h
        subst h
        constructor
        · rintro ⟨hr, htc⟩
          by_contra hc
          exact h1 ⟨hr, htc, hc⟩
        · intro hr
          by_contra hid
          exact h2 ⟨hr, hid⟩

/-- C8 (witness): the three components instantiated — a rejected assistant
message with tool calls and content, a rejected tool message without
`tool_call_id`, and the rules evaluated on a concretely validated user
message. -/
theorem message_consistency_validation_witness :
    (∃ e, mkMessage Role.assistant (some "hi")
        (some [{ id := "1", function := { name := "f", arguments := "" } }])
        none none = Except.error e) ∧
    (∃ e, mkMessage Role.tool (some "out") none none none = Except.error e) ∧
    ((({ role := Role.user, content := some "hello", tool_calls := none, tool_call_id := none, timestamp := none } : Message).role = Role.assistant ∧ toolCallsTruthy ({ role := Role.user, content := some "hello", tool_calls := none, tool_call_id := none, timestamp := none } : Message).tool_calls = true → ({ role := Role.user, content := some "hello", tool_calls := none, tool_call_id := none, timestamp := none } : Message).content = none) ∧
      (({ role := Role.user, content := some "hello", tool_calls := none, tool_call_id := none, timestamp := none } : Message).role = Role.tool → toolCallIdTruthy ({ role := Role.user, content := some "hello", tool_calls := none, tool_call_id := none, timestamp := none } : Message).tool_call_id = true)) :=
  ⟨message_consistency_validation.1 "hi"
      { id := "1", function := { name := "f", arguments := "" } } [] none none,
   message_consistency_validation.2.1 (some "out") none none,
   message_consistency_validation.2.2 Role.user (some "hello") none none none
      _ rfl⟩

/-- C9: `ConversationContext` is a process-wide singleton.  Once the global
instance exists every further construction, with any arguments and at any
time, returns that same instance unchanged (so the later arguments are
dropped), the instance still carries the fields of the first initialization,
and any two contexts obtained this way are the same object — in particular
they share one history and one summary. -/
theorem conversation_context_singleton (args1 args2 : CtxArgs)
    (now1 now2 : Nat) :
    (constructConversationContext
        (constructConversationContext none args1 now1).2 args2 now2).1
      = (constructConversationContext none args1 now1).1 ∧
    (constructConversationContext
        (constructConversationContext none args1 now1).2 args2 now2).2
      = (constructConversationContext none args1 now1).2 ∧
    (constructConversationContext
        (constructConversationContext none args1 now1).2 args2 now2).1.history
      = (constructConversationContext none args1 now1).1.history ∧
    (constructConversationContext
        (constructConversationContext none args1 now1).2 args2
        now2).1.conversationSummary
      = (constructConversationContext none args1 now1).1.conversationSummary ∧
    (constructConversationContext none args1 now1).1.maxHistoryLength
      = args1.maxHistoryLength ∧
    (constructConversationContext none args1 now1).1.summarizer
      = args1.summarizer ∧
    (constructConversationContext none args1 now1).1.saveToFile
      = args1.saveToFile ∧
    (∀ inst : ConvContext,
      constructConversationContext (some inst) args2 now2 = (inst, some inst)) :=
  ⟨rfl, rfl, rfl, rfl, rfl, rfl, rfl, fun _ => rfl⟩

/-- C10: `get_value` collapses "key absent", "key expired" and "stored value
is null" into the same result `None` (here `vNull`), while `get_item` and
`exists` keep the three cases apart from the stored-null case. -/
theorem get_value_none_ambiguity (s0 sN sE : PadState) (now : Nat)
    (k : String) (it itE : SketchPadItem) (e : Nat)
    (h0 : lookupAssoc s0.items k = none)
    (hN : lookupAssoc sN.items k = some (it, none))
    (hv : it.value = PadValue.vNull)
    (hE : lookupAssoc sE.items k = some (itE, some e))
    (he : e ≤ now) :
    (get_value s0 now k).1 = PadValue.vNull ∧
    (get_value sN now k).1 = PadValue.vNull ∧
    (get_value sE now k).1 = PadValue.vNull ∧
    (get_item s0 now k).1 = none ∧
    (get_item sN now k).1 ≠ none ∧
    (get_item sE now k).1 = none ∧
    exists_key s0 now k = false ∧
    exists_key sN now k = true ∧
    exists_key sE now k = false := by
  have hnl : ¬ now < e := by omega
  refine ⟨?_, ?_, ?_, ?_, ?_, ?_, ?_, ?_, ?_⟩
  · simp [get_value, get_item, h0]
  · simp [get_value, get_item, hN, entryLive, hv]
  · simp [get_value, get_item, hE, entryLive, hnl]
  · simp [get_item, h0]
  · simp [get_item, hN, entryLive]
  · simp [get_item, hE, entryLive, hnl]
  · simp [exists_key, h0]
  · simp [exists_key, hN, entryLive]
  · simp [exists_key, hE, entryLive, hnl]

/-- C10 (witness): an empty pad, a pad holding a null value under "k", and a
pad holding an expired item under "k", all read at instant 10. -/
theorem get_value_none_ambiguity_witness :
    (get_value emptyPad 10 "k").1 = PadValue.vNull ∧
    (get_value (set_item emptyPad 0 "k" PadValue.vNull none none []).2 10
        "k").1 = PadValue.vNull ∧
    (get_value (set_item emptyPad 0 "k" (PadValue.vStr "x") (some 5) none
        []).2 10 "k").1 = PadValue.vNull ∧
    (get_item emptyPad 10 "k").1 = none ∧
    (get_item (set_item emptyPad 0 "k" PadValue.vNull none none []).2 10
        "k").1 ≠ none ∧
    (get_item (set_item emptyPad 0 "k" (PadValue.vStr "x") (some 5) none
        []).2 10 "k").1 = none ∧
    exists_key emptyPad 10 "k" = false ∧
    exists_key (set_item emptyPad 0 "k" PadValue.vNull none none []).2 10 "k"
      = true ∧
    exists_key (set_item emptyPad 0 "k" (PadValue.vStr "x") (some 5) none
        []).2 10 "k" = false :=
  get_value_none_ambiguity emptyPad
    (set_item emptyPad 0 "k" PadValue.vNull none none []).2
    (set_item emptyPad 0 "k" (PadValue.vStr "x") (some 5) none []).2
    10 "k"
    ({ value := PadValue.vNull, timestamp := 0, summary := none,
       expires_at := none, access_count := 0, last_accessed := some 0,
       tags := [], content_type := "text",
       content_hash := some (getContentHash PadValue.vNull) })
    ({ value := PadValue.vStr "x", timestamp := 0, summary := none,
       expires_at := some 5, access_count := 0, last_accessed := some 0,
       tags := [], content_type := "text",
       content_hash := some (getContentHash (PadValue.vStr "x")) })
    5 rfl (by decide) rfl (by decide) (by decide)

/-- C4: on a history store with a configured summarizer and
`maxHistoryLength = N ≥ 1`, `add_message` keeps the message count at most N;
when the append overflows the bound, the previous summary text is preserved
as a prefix of the new summary (summaries accumulate, never shrink) and the
history is re-seeded with exactly one synthetic assistant continuity
message. -/
theorem history_compaction_invariant (c : ConvContext) (now : Nat)
    (role content : String) (meta : Option String) (f : List HMsg → String)
    (hf : c.summarizer = some f) (hN : 1 ≤ c.maxHistoryLength)
    (hlen : c.history.length ≤ c.maxHistoryLength) :
    (addMessage c now role content meta).history.length
        ≤ c.maxHistoryLength ∧
    (∀ old, c.conversationSummary = some old →
      ∃ rest, (addMessage c now role content meta).conversationSummary
          = some (old ++ rest)) ∧
    (c.history.length + 1 > c.maxHistoryLength →
      ∃ m, (addMessage c now role content meta).history = [m]
        ∧ m.role = "assistant" ∧ m.meta = some "summary") := by
  by_cases hover : c.history.length + 1 > c.maxHistoryLength
  · have hne : (c.history ++ [({ role := role, content := content, timestamp := now, meta := meta } : HMsg)]).isEmpty = false := by
      simp
    refine ⟨?_, ?_, ?_⟩
    · simp [addMessage, autoMemoryManage, hf, hover, hne]
      omega
    · intro old hold
      refine ⟨"\n\n" ++ f (c.history ++ [({ role := role, content := content, timestamp := now, meta := meta } : HMsg)]), ?_⟩
      simp [addMessage, autoMemoryManage, hf, hover, hne, hold,
        String.append_assoc]
    · intro _
      refine ⟨({ role := "assistant", content := continuityContent (f (c.history ++ [({ role := role, content := content, timestamp := now, meta := meta } : HMsg)])), timestamp := now, meta := some "summary" } : HMsg), ?_, rfl, rfl⟩
      simp [addMessage, autoMemoryManage, hf, hover, hne]
  · refine ⟨?_, ?_, ?_⟩
    · simp [addMessage, autoMemoryManage, hf, hover]
      omega
    · intro old hold
      refine ⟨"", ?_⟩
      simp [addMessage, autoMemoryManage, hf, hover, hold]
    · intro hc
      exact absurd hc hover

/-- C4 (witness): a history at its bound of 1 with prior summary "OLD"
receives a second message, triggering compaction with summarizer output
"S". -/
theorem history_compaction_invariant_witness :
    (addMessage ({ maxHistoryLength := 1, summarizer := some (fun _ => "S"), saveToFile := false, contextFile := "f", history := [({ role := "user", content := "hi", timestamp := 0, meta := none } : HMsg)], conversationSummary := some "OLD", totalMessages := 1, lastActivity := 0 } : ConvContext) 1 "user" "again" none).history.length ≤ 1 ∧
    (∀ old, (some "OLD" : Option String) = some old →
      ∃ rest, (addMessage ({ maxHistoryLength := 1, summarizer := some (fun _ => "S"), saveToFile := false, contextFile := "f", history := [({ role := "user", content := "hi", timestamp := 0, meta := none } : HMsg)], conversationSummary := some "OLD", totalMessages := 1, lastActivity := 0 } : ConvContext) 1 "user" "again" none).conversationSummary = some (old ++ rest)) ∧
    ((1 : Nat) + 1 > 1 →
      ∃ m, (addMessage ({ maxHistoryLength := 1, summarizer := some (fun _ => "S"), saveToFile := false, contextFile := "f", history := [({ role := "user", content := "hi", timestamp := 0, meta := none } : HMsg)], conversationSummary := some "OLD", totalMessages := 1, lastActivity := 0 } : ConvContext) 1 "user" "again" none).history = [m]
        ∧ m.role = "assistant" ∧ m.meta = some "summary") :=
  history_compaction_invariant
    ({ maxHistoryLength := 1, summarizer := some (fun _ => "S"), saveToFile := false, contextFile := "f", history := [({ role := "user", content := "hi", timestamp := 0, meta := none } : HMsg)], conversationSummary := some "OLD", totalMessages := 1, lastActivity := 0 } : ConvContext)
    1 "user" "again" none (fun _ => "S") rfl (by decide) (by decide)

/-- Without a configured LLM interface, `_auto_memory_manage` is the
identity. -/
theorem autoMemoryManage_none (c : ConvContext) (now : Nat)
    (hs : c.summarizer = none) : autoMemoryManage c now = c := by
  simp [autoMemoryManage, hs]

/-- A sync whose external list is at least as long as the current history
leaves the history at exactly the external length (no compaction without a
summarizer), and keeps the summarizer unset. -/
theorem syncWithExternal_length (c : ConvContext) (now : Nat)
    (L : List ExtMsg) (hs : c.summarizer = none)
    (hlen : c.history.length ≤ L.length) :
    (syncWithExternal c now L).2.history.length = L.length ∧
    (syncWithExternal c now L).2.summarizer = none := by
  by_cases h : L.length > c.history.length
  · constructor
    · simp [syncWithExternal, h, autoMemoryManage, hs]
      omega
    · simp [syncWithExternal, h, autoMemoryManage, hs]
  · constructor
    · simp [syncWithExternal, h, autoMemoryManage, hs]
      omega
    · simp [syncWithExternal, h, autoMemoryManage, hs]

/-- C5 (amended): the sync contract holds provided nothing shrinks the
internal history between the calls — here, no summarizer is configured (so
`_auto_memory_manage` cannot compact) and the history does not already
exceed the external list.  Then a repeated `sync_with_external_history(L)`
appends nothing, and a following call with `L ++ [m]` appends exactly the
one stamped copy of `m`.  (The source diffs by length only, so a compaction
that shrinks the history makes a repeated sync re-append old positions; see
the counterexample.) -/
theorem sync_idempotent_without_compaction (c : ConvContext)
    (now1 now2 now3 : Nat) (L : List ExtMsg) (m : ExtMsg)
    (hs : c.summarizer = none) (hlen : c.history.length ≤ L.length) :
    (syncWithExternal (syncWithExternal c now1 L).2 now2 L).1 = [] ∧
    (syncWithExternal (syncWithExternal c now1 L).2 now3 (L ++ [m])).1
      = [({ role := m.role, content := m.content, timestamp := now3, meta := none } : HMsg)] := by
  obtain ⟨hl, hs1⟩ := syncWithExternal_length c now1 L hs hlen
  set c1 := (syncWithExternal c now1 L).2 with hc1
  constructor
  · show (syncWithExternal c1 now2 L).1 = []
    simp only [syncWithExternal]
    rw [hl]
    simp
  · show (syncWithExternal c1 now3 (L ++ [m])).1 = _
    simp only [syncWithExternal]
    rw [hl]
    simp [List.drop_left]

/-- C5 (witness): a fresh context without summarizer synced with a one-entry
external list; the repeated sync appends nothing, the grown sync appends
exactly the new message. -/
theorem sync_idempotent_without_compaction_witness :
    (syncWithExternal (syncWithExternal ({ maxHistoryLength := 5, summarizer := none, saveToFile := false, contextFile := "f", history := [], conversationSummary := none, totalMessages := 0, lastActivity := 0 } : ConvContext) 0 [({ role := "user", content := "a" } : ExtMsg)]).2 1 [({ role := "user", content := "a" } : ExtMsg)]).1 = [] ∧
    (syncWithExternal (syncWithExternal ({ maxHistoryLength := 5, summarizer := none, saveToFile := false, contextFile := "f", history := [], conversationSummary := none, totalMessages := 0, lastActivity := 0 } : ConvContext) 0 [({ role := "user", content := "a" } : ExtMsg)]).2 2 ([({ role := "user", content := "a" } : ExtMsg)] ++ [({ role := "assistant", content := "b" } : ExtMsg)])).1
      = [({ role := "assistant", content := "b", timestamp := 2, meta := none } : HMsg)] :=
  sync_idempotent_without_compaction
    ({ maxHistoryLength := 5, summarizer := none, saveToFile := false, contextFile := "f", history := [], conversationSummary := none, totalMessages := 0, lastActivity := 0 } : ConvContext)
    0 1 2 [({ role := "user", content := "a" } : ExtMsg)]
    ({ role := "assistant", content := "b" } : ExtMsg) rfl (by decide)

/-- C5 (counterexample): with a summarizer and `maxHistoryLength = 1`, the
first `sync_with_external_history([a, b])` appends both messages and then
compacts the history down to the single continuity message; the literally
repeated call sees an internal length of 1 against an external length of 2
and re-appends the already-recorded position 1 — one message instead of
none. -/
theorem sync_reappends_after_compaction_counterexample :
    (syncWithExternal (syncWithExternal ({ maxHistoryLength := 1, summarizer := some (fun _ => "SUM"), saveToFile := false, contextFile := "f", history := [], conversationSummary := none, totalMessages := 0, lastActivity := 0 } : ConvContext) 0 [({ role := "user", content := "a" } : ExtMsg), ({ role := "assistant", content := "b" } : ExtMsg)]).2 1 [({ role := "user", content := "a" } : ExtMsg), ({ role := "assistant", content := "b" } : ExtMsg)]).1
      = [({ role := "assistant", content := "b", timestamp := 1, meta := none } : HMsg)] ∧
    (syncWithExternal (syncWithExternal ({ maxHistoryLength := 1, summarizer := some (fun _ => "SUM"), saveToFile := false, contextFile := "f", history := [], conversationSummary := none, totalMessages := 0, lastActivity := 0 } : ConvContext) 0 [({ role := "user", content := "a" } : ExtMsg), ({ role := "assistant", content := "b" } : ExtMsg)]).2 1 [({ role := "user", content := "a" } : ExtMsg), ({ role := "assistant", content := "b" } : ExtMsg)]).1.length ≠ 0 := by
  constructor
  · rfl
  · decide

/-! ## Serialization round trip (C7) -/

theorem lookup_none_of_not_mem {α : Type}
    (l : List (String × α)) (k : String) (h : k ∉ l.map Prod.fst) :
    lookupAssoc l k = none := by
  induction l with
  | nil => rfl
  | cons hd tl ih =>
      simp only [List.map, List.mem_cons] at h
      push_neg at h
      have hne : ¬ hd.1 = k := fun hc => h.1 hc.symm
      simp [lookupAssoc, hne, ih h.2]

theorem mem_of_lookup_some {α : Type}
    (l : List (String × α)) (k : String) (v : α)
    (h : lookupAssoc l k = some v) : k ∈ l.map Prod.fst := by
  induction l with
  | nil => simp [lookupAssoc] at h
  | cons hd tl ih =>
      by_cases hk : hd.1 = k
      · simp [hk]
      · simp only [lookupAssoc, hk, if_neg hk] at h
        simp [ih h]

theorem insert_map_fst_of_lookup {α : Type}
    (l : List (String × α)) (k : String) (v0 v : α)
    (h : lookupAssoc l k = some v0) :
    (insertAssoc l k v).map Prod.fst = l.map Prod.fst := by
  induction l with
  | nil => simp [lookupAssoc] at h
  | cons hd tl ih =>
      by_cases hk : hd.1 = k
      · simp [insertAssoc, hk]
      · simp only [lookupAssoc, hk, if_neg hk] at h
        simp [insertAssoc, hk, ih h]

/-- A dead or absent key makes `get_item` a no-op returning absent. -/
theorem get_item_none_of_dead (s : PadState) (now : Nat) (k : String)
    (h : exists_key s now k = false) : get_item s now k = (none, s) := by
  unfold get_item
  unfold exists_key at h
  cases hl : lookupAssoc s.items k with
  | none => simp
  | some p =>
      obtain ⟨it, exp⟩ := p
      rw [hl] at h
      simp only [] at h
      simp [h]

/-- A live key makes `get_item` return the access-bumped item and store it
back without a TTL. -/
theorem get_item_live (s : PadState) (now : Nat) (k : String)
    (it : SketchPadItem) (exp : Option Nat)
    (h : lookupAssoc s.items k = some (it, exp))
    (hl : entryLive now exp = true) :
    (get_item s now k).1 = some (bumpedAt s now k) ∧
    (get_item s now k).2.items
      = insertAssoc s.items k (bumpedAt s now k, none) := by
  unfold get_item bumpedAt
  rw [h]
  simp [hl]

/-- `get_item` touches no other key's binding. -/
theorem get_item_lookup_ne (s : PadState) (now : Nat) (k k1 : String)
    (h : k1 ≠ k) :
    lookupAssoc (get_item s now k).2.items k1 = lookupAssoc s.items k1 := by
  unfold get_item
  cases hl : lookupAssoc s.items k with
  | none => simp
  | some p =>
      obtain ⟨it, exp⟩ := p
      by_cases he : entryLive now exp = true
      · simp [he, lookup_insert_ne _ _ _ _ h]
      · simp [he]

/-- List form of the live-key scan membership. -/
theorem mem_liveList (now : Nat) (k : String) :
    ∀ l : List (String × (SketchPadItem × Option Nat)),
    (l.map Prod.fst).Nodup →
    (k ∈ (l.filter (fun p => entryLive now p.2.2)).map Prod.fst ↔
      (match lookupAssoc l k with
       | some (_, exp) => entryLive now exp
       | none => false) = true) := by
  intro l
  induction l with
  | nil => simp [lookupAssoc]
  | cons hd tl ih =>
      intro hnd
      simp only [List.map, List.nodup_cons] at hnd
      obtain ⟨hhd, htl⟩ := hnd
      have ihtl := ih htl
      by_cases hk : hd.1 = k
      · by_cases he : entryLive now hd.2.2 = true
        · simp [List.filter_cons, he, lookupAssoc, hk]
        · simp only [Bool.not_eq_true] at he
          have hrest : k ∉ (tl.filter (fun p => entryLive now p.2.2)).map Prod.fst := by
            intro hc
            have hsub : ((tl.filter (fun p => entryLive now p.2.2)).map Prod.fst).Sublist (tl.map Prod.fst) :=
              (List.filter_sublist tl).map Prod.fst
            exact hhd (hk ▸ hsub.mem hc)
          simp [List.filter_cons, he, lookupAssoc, hk, hrest]
      · by_cases he : entryLive now hd.2.2 = true
        · simp only [List.filter_cons, he, if_pos rfl, List.map, List.mem_cons]
          rw [ihtl]
          simp only [lookupAssoc, hk, if_neg hk]
          constructor
          · rintro (hc | hc)
            · exact absurd hc.symm hk
            · exact hc
          · intro hc
            exact Or.inr hc
        · simp only [Bool.not_eq_true] at he
          simp [List.filter_cons, he, lookupAssoc, hk, ihtl]

/-- With duplicate-free items, membership in the live key scan coincides
with `exists` reporting the key alive. -/
theorem mem_liveKeys (s : PadState) (now : Nat) (k : String)
    (hnd : (s.items.map Prod.fst).Nodup) :
    k ∈ liveKeys s now ↔ exists_key s now k = true :=
  mem_liveList now k s.items hnd

/-- `get_item` on a live key, as a whole-state equation. -/
theorem get_item_live_eq (s : PadState) (now : Nat) (k : String)
    (it : SketchPadItem) (exp : Option Nat)
    (h : lookupAssoc s.items k = some (it, exp))
    (hl : entryLive now exp = true) :
    get_item s now k = (some (bumpedAt s now k),
      { s with items := insertAssoc s.items k (bumpedAt s now k, none) }) := by
  unfold get_item bumpedAt
  rw [h]
  simp [hl]

/-- The live key scan stays duplicate-free when the keyspace is. -/
theorem liveKeys_nodup (s : PadState) (now : Nat)
    (hnd : (s.items.map Prod.fst).Nodup) : (liveKeys s now).Nodup :=
  ((List.filter_sublist s.items).map Prod.fst).nodup hnd

/-- The serialize loop over duplicate-free, everywhere-live keys collects
exactly the access-bumped images of the items, in scan order. -/
theorem serializeGo_spec (now : Nat) :
    ∀ (ks : List String) (s0 s : PadState)
      (acc : List (String × SketchPadItem)),
    ks.Nodup →
    (∀ k ∈ ks, lookupAssoc s.items k = lookupAssoc s0.items k) →
    (∀ k ∈ ks, exists_key s0 now k = true) →
    (serializeGo now ks s acc).1
      = acc ++ ks.map (fun k => (k, bumpedAt s0 now k)) := by
  intro ks
  induction ks with
  | nil => intro s0 s acc _ _ _; simp [serializeGo]
  | cons k ks ih =>
      intro s0 s acc hnd hagree hlive
      simp only [List.nodup_cons] at hnd
      obtain ⟨hk, hndtl⟩ := hnd
      have hex := hlive k (List.mem_cons_self k ks)
      obtain ⟨it, exp, hlk0, hle⟩ :
          ∃ it exp, lookupAssoc s0.items k = some (it, exp)
            ∧ entryLive now exp = true := by
        unfold exists_key at hex
        cases hl0 : lookupAssoc s0.items k with
        | none => rw [hl0] at hex; simp at hex
        | some p =>
            obtain ⟨it, exp⟩ := p
            rw [hl0] at hex
            exact ⟨it, exp, rfl, hex⟩
      have hlks : lookupAssoc s.items k = some (it, exp) :=
        (hagree k (List.mem_cons_self k ks)).trans hlk0
      have hbeq : bumpedAt s now k = bumpedAt s0 now k := by
        unfold bumpedAt
        rw [hlks, hlk0]
      unfold serializeGo
      rw [get_item_live_eq s now k it exp hlks hle]
      rw [ih s0 _ (acc ++ [(k, bumpedAt s now k)]) hndtl ?_ ?_]
      · rw [hbeq]
        simp
      · intro q hq
        have hqk : q ≠ k := fun hc => hk (hc ▸ hq)
        simp only []
        rw [lookup_insert_ne _ _ _ _ hqk]
        exact hagree q (List.mem_cons_of_mem k hq)
      · intro q hq
        exact hlive q (List.mem_cons_of_mem k hq)

/-- The snapshot produced by `serialize` pairs every live key with the
access-bumped image of its item. -/
theorem serialize_spec (s : PadState) (now : Nat)
    (hnd : (s.items.map Prod.fst).Nodup) :
    (serialize s now).1
      = (liveKeys s now).map (fun k => (k, bumpedAt s now k)) := by
  unfold serialize
  rw [serializeGo_spec now (liveKeys s now) s s [] (liveKeys_nodup s now hnd)
    (fun _ _ => rfl)
    (fun k hk => (mem_liveKeys s now k hnd).mp hk)]
  simp

/-- `deserialize` changes the data keys by left-folding plain writes of the
snapshot entries; the tag-index rebuild does not touch them. -/
theorem deserialize_items :
    ∀ (snap : List (String × SketchPadItem)) (s : PadState),
    (deserialize s snap).items
      = snap.foldl (fun l p => insertAssoc l p.1 (p.2, none)) s.items := by
  intro snap
  induction snap with
  | nil => intro s; rfl
  | cons p ps ih =>
      intro s
      show (deserialize _ ps).items = _
      rw [ih]
      by_cases ht : p.2.tags.isEmpty
      · simp [deserialize, ht]
      · simp [deserialize, ht]

/-- Lookup after left-folding fresh writes of a duplicate-free snapshot. -/
theorem foldl_insert_lookup :
    ∀ (snap : List (String × SketchPadItem))
      (l : List (String × (SketchPadItem × Option Nat))) (k : String),
    (snap.map Prod.fst).Nodup →
    (∀ p ∈ snap, lookupAssoc l p.1 = none) →
    lookupAssoc (snap.foldl (fun acc p => insertAssoc acc p.1 (p.2, none)) l) k
      = (match lookupAssoc snap k with
         | some it => some (it, none)
         | none => lookupAssoc l k) := by
  intro snap
  induction snap with
  | nil => intro l k _ _; rfl
  | cons p ps ih =>
      intro l k hnd hfresh
      simp only [List.map, List.nodup_cons] at hnd
      obtain ⟨hp, hndtl⟩ := hnd
      have hfresh1 : ∀ q ∈ ps, lookupAssoc (insertAssoc l p.1 (p.2, none)) q.1 = none := by
        intro q hq
        have hqp : q.1 ≠ p.1 := fun hc =>
          hp (hc ▸ List.mem_map_of_mem Prod.fst hq)
        rw [lookup_insert_ne _ _ _ _ hqp]
        exact hfresh q (List.mem_cons_of_mem p hq)
      show lookupAssoc (ps.foldl _ (insertAssoc l p.1 (p.2, none))) k = _
      rw [ih (insertAssoc l p.1 (p.2, none)) k hndtl hfresh1]
      by_cases hk : p.1 = k
      · have hps : lookupAssoc ps k = none := by
          apply lookup_none_of_not_mem
          rw [← hk]
          exact hp
        rw [hps]
        simp only [lookupAssoc, hk, if_pos rfl]
        rw [← hk, lookup_insert_self]
        simp
      · simp only [lookupAssoc, hk, if_neg hk]
        cases hps : lookupAssoc ps k with
        | none => simp [lookup_insert_ne _ _ _ _ (fun hc : k = p.1 => hk hc.symm)]
        | some it => simp

/-- Lookup in a key/function pairing list. -/
theorem lookup_pairs_map (f : String → SketchPadItem) :
    ∀ (ks : List String) (k : String),
    lookupAssoc (ks.map (fun k1 => (k1, f k1))) k
      = (if k ∈ ks then some (f k) else none) := by
  intro ks
  induction ks with
  | nil => intro k; simp [lookupAssoc]
  | cons k1 ks ih =>
      intro k
      by_cases hk : k1 = k
      · simp [lookupAssoc, hk]
      · have hmem : (k ∈ k1 :: ks) ↔ (k ∈ ks) := by
          rw [List.mem_cons]
          constructor
          · rintro (hc | hc)
            · exact absurd hc.symm hk
            · exact hc
          · exact Or.inr
        simp only [List.map, lookupAssoc, hk, if_neg hk, ih]
        rw [if_congr hmem rfl rfl]
        simp

/-- C7: the snapshot/reload round trip.  Deserializing the snapshot of a pad
into an empty pad reproduces exactly the live key set (at every later
instant, since the restored entries carry no Redis TTL), and every live item
is reproduced verbatim except for the access count (one read during
`serialize`) and the access timestamp — in particular the tag set and the
content hash of every item are identical. -/
theorem serialize_deserialize_roundtrip (s : PadState) (now : Nat)
    (hnd : (s.items.map Prod.fst).Nodup) :
    (∀ k nowq,
      isLive (deserialize emptyPad (serialize s now).1) nowq k
        = isLive s now k) ∧
    (∀ k it exp, lookupAssoc s.items k = some (it, exp) →
      entryLive now exp = true →
      lookupAssoc (deserialize emptyPad (serialize s now).1).items k
        = some ({ it with access_count := it.access_count + 1, last_accessed := some now }, none)) := by
  have hlk : ∀ k, lookupAssoc (serialize s now).1 k
      = (if k ∈ liveKeys s now then some (bumpedAt s now k) else none) := by
    intro k
    rw [serialize_spec s now hnd]
    exact lookup_pairs_map _ _ k
  have hsnapnd : ((serialize s now).1.map Prod.fst).Nodup := by
    rw [serialize_spec s now hnd, List.map_map]
    have hcomp : (Prod.fst ∘ fun k => (k, bumpedAt s now k)) = fun k => k := rfl
    rw [hcomp]
    simpa using liveKeys_nodup s now hnd
  have hdz : ∀ k,
      lookupAssoc (deserialize emptyPad (serialize s now).1).items k
        = (match lookupAssoc (serialize s now).1 k with
           | some it => some (it, none)
           | none => none) := by
    intro k
    rw [deserialize_items]
    rw [foldl_insert_lookup (serialize s now).1 emptyPad.items k hsnapnd
      (fun _ _ => rfl)]
    cases lookupAssoc (serialize s now).1 k <;> rfl
  constructor
  · intro k nowq
    by_cases hm : k ∈ liveKeys s now
    · have h1 : isLive (deserialize emptyPad (serialize s now).1) nowq k = true := by
        unfold isLive exists_key
        rw [hdz k, hlk k]
        simp [hm, entryLive]
      have h2 : isLive s now k = true := (mem_liveKeys s now k hnd).mp hm
      rw [h1, h2]
    · have h1 : isLive (deserialize emptyPad (serialize s now).1) nowq k = false := by
        unfold isLive exists_key
        rw [hdz k, hlk k]
        simp [hm]
      have h2 : isLive s now k = false := by
        cases hb : isLive s now k with
        | false => rfl
        | true => exact absurd ((mem_liveKeys s now k hnd).mpr hb) hm
      rw [h1, h2]
  · intro k it exp hl he
    have hex : exists_key s now k = true := by
      unfold exists_key
      rw [hl]
      exact he
    have hm : k ∈ liveKeys s now := (mem_liveKeys s now k hnd).mpr hex
    rw [hdz k, hlk k]
    simp only [hm, if_pos]
    unfold bumpedAt
    rw [hl]

/-- C7 (witness): a pad holding a tagged string item and an integer item,
serialized at instant 3 and reloaded into an empty pad. -/
theorem serialize_deserialize_roundtrip_witness :
    (∀ k nowq, isLive (deserialize emptyPad (serialize ((set_item ((set_item emptyPad 0 "a" (PadValue.vStr "hello") none none ["code"]).2) 1 "b" (PadValue.vInt 7) none (some "num") []).2) 3).1) nowq k = isLive ((set_item ((set_item emptyPad 0 "a" (PadValue.vStr "hello") none none ["code"]).2) 1 "b" (PadValue.vInt 7) none (some "num") []).2) 3 k) ∧
    (∀ k it exp, lookupAssoc ((set_item ((set_item emptyPad 0 "a" (PadValue.vStr "hello") none none ["code"]).2) 1 "b" (PadValue.vInt 7) none (some "num") []).2).items k = some (it, exp) →
      entryLive 3 exp = true →
      lookupAssoc (deserialize emptyPad (serialize ((set_item ((set_item emptyPad 0 "a" (PadValue.vStr "hello") none none ["code"]).2) 1 "b" (PadValue.vInt 7) none (some "num") []).2) 3).1).items k
        = some ({ it with access_count := it.access_count + 1, last_accessed := some 3 }, none)) :=
  serialize_deserialize_roundtrip
    ((set_item ((set_item emptyPad 0 "a" (PadValue.vStr "hello") none none ["code"]).2) 1 "b" (PadValue.vInt 7) none (some "num") []).2)
    3 (by decide)

/-! ## Tag search (C6) -/

/-- `get_item` never touches the tag index. -/
theorem get_item_tagIndex (s : PadState) (now : Nat) (k : String) :
    (get_item s now k).2.tagIndex = s.tagIndex := by
  unfold get_item
  cases hl : lookupAssoc s.items k with
  | none => rfl
  | some p =>
      obtain ⟨it, exp⟩ := p
      by_cases he : entryLive now exp = true
      · simp [he]
      · simp [he]

/-- The item returned by `get_item` carries exactly the tags of the live
binding. -/
theorem get_item_fst_tags (s : PadState) (now : Nat) (k : String) :
    ((get_item s now k).1).map (fun it => it.tags) = liveTags s now k := by
  unfold get_item liveTags
  cases hl : lookupAssoc s.items k with
  | none => rfl
  | some p =>
      obtain ⟨it, exp⟩ := p
      by_cases he : entryLive now exp = true
      · simp [he]
      · simp [he]

/-- `get_item` preserves every key's liveness-and-tags observable (a bumped
item keeps its tags and stays alive, other bindings are untouched). -/
theorem get_item_liveTags (s : PadState) (now : Nat) (k k1 : String) :
    liveTags (get_item s now k).2 now k1 = liveTags s now k1 := by
  unfold get_item
  cases hl : lookupAssoc s.items k with
  | none => rfl
  | some p =>
      obtain ⟨it, exp⟩ := p
      by_cases he : entryLive now exp = true
      · simp only [he, if_pos]
        by_cases hk1 : k1 = k
        · subst hk1
          unfold liveTags
          rw [hl]
          simp only []
          rw [lookup_insert_self]
          have hnone : entryLive now none = true := rfl
          simp [hnone, he]
        · unfold liveTags
          simp only []
          rw [lookup_insert_ne _ _ _ _ hk1]
      · simp [he]

/-- Accumulated results survive the rest of the `match_all` scan. -/
theorem searchTagsAllGo_acc_mono (now : Nat) (q : List String) :
    ∀ (ks : List String) (s : PadState)
      (acc : List (String × SketchPadItem)) (x : String × SketchPadItem),
    x ∈ acc → x ∈ (searchTagsAllGo now q ks s acc).1 := by
  intro ks
  induction ks with
  | nil => intro s acc x hx; exact hx
  | cons k ks ih =>
      intro s acc x hx
      unfold searchTagsAllGo
      cases hgi : get_item s now k with
      | mk fst snd =>
          cases fst with
          | none => exact ih snd acc x hx
          | some it =>
              by_cases hq : q.all (fun t => decide (t ∈ it.tags)) = true
              · simp only [hq, if_pos]
                exact ih snd _ x (List.mem_append_left _ hx)
              · simp only [hq]
                simp
                exact ih snd acc x hx

/-- Soundness of the `match_all` scan: every produced pair beyond the
accumulator is a live item whose tags contain the whole query. -/
theorem searchTagsAllGo_sound (now : Nat) (q : List String) (s0 : PadState) :
    ∀ (ks : List String) (s : PadState)
      (acc : List (String × SketchPadItem)),
    (∀ k1, liveTags s now k1 = liveTags s0 now k1) →
    ∀ x, x ∈ (searchTagsAllGo now q ks s acc).1 →
      x ∈ acc ∨ (liveTags s0 now x.1 = some x.2.tags
        ∧ q.all (fun t => decide (t ∈ x.2.tags)) = true) := by
  intro ks
  induction ks with
  | nil => intro s acc _ x hx; exact Or.inl hx
  | cons k ks ih =>
      intro s acc hbase x hx
      have hbase1 : ∀ k1, liveTags (get_item s now k).2 now k1 = liveTags s0 now k1 :=
        fun k1 => (get_item_liveTags s now k k1).trans (hbase k1)
      unfold searchTagsAllGo at hx
      cases hgi : get_item s now k with
      | mk fst snd =>
          rw [hgi] at hx
          have hbase2 : ∀ k1, liveTags snd now k1 = liveTags s0 now k1 := by
            intro k1
            have := hbase1 k1
            rw [hgi] at this
            exact this
          cases fst with
          | none => exact ih snd acc hbase2 x hx
          | some it =>
              by_cases hq : q.all (fun t => decide (t ∈ it.tags)) = true
              · simp only [hq, if_pos] at hx
                rcases ih snd _ hbase2 x hx with hmem | hgood
                · rcases List.mem_append.mp hmem with hacc | hnew
                  · exact Or.inl hacc
                  · right
                    have hxeq : x = (k, it) := by simpa using hnew
                    subst hxeq
                    constructor
                    · have htags := get_item_fst_tags s now k
                      rw [hgi] at htags
                      simp at htags
                      rw [← hbase k]
                      exact htags.symm
                    · exact hq
                · exact Or.inr hgood
              · simp only [hq] at hx
                simp at hx
                exact ih snd acc hbase2 x hx

/-- Completeness of the `match_all` scan: a candidate key that is live with
all query tags ends up in the results. -/
theorem searchTagsAllGo_complete (now : Nat) (q : List String) (s0 : PadState)
    (k : String) (T : List String) (hT : liveTags s0 now k = some T)
    (hq : q.all (fun t => decide (t ∈ T)) = true) :
    ∀ (ks : List String) (s : PadState)
      (acc : List (String × SketchPadItem)),
    (∀ k1, liveTags s now k1 = liveTags s0 now k1) →
    k ∈ ks →
    ∃ it1, (k, it1) ∈ (searchTagsAllGo now q ks s acc).1 := by
  intro ks
  induction ks with
  | nil => intro s acc _ hk; exact absurd hk (List.not_mem_nil k)
  | cons k1 ks ih =>
      intro s acc hbase hk
      have hbase2 : ∀ k2, liveTags (get_item s now k1).2 now k2 = liveTags s0 now k2 :=
        fun k2 => (get_item_liveTags s now k1 k2).trans (hbase k2)
      unfold searchTagsAllGo
      by_cases hkk : k1 = k
      · subst hkk
        have htags := get_item_fst_tags s now k1
        rw [hbase k1, hT] at htags
        obtain ⟨it1, hfst, htag⟩ := Option.map_eq_some'.mp htags
        cases hgi : get_item s now k1 with
        | mk fst snd =>
            rw [hgi] at hfst htags
            cases fst with
            | none => simp at hfst
            | some it2 =>
                have hit2 : it2 = it1 := by simpa using hfst
                subst hit2
                have hqt : q.all (fun t => decide (t ∈ it2.tags)) = true := by
                  rw [htag]
                  exact hq
                simp only [hqt, if_pos]
                refine ⟨it2, ?_⟩
                apply searchTagsAllGo_acc_mono
                exact List.mem_append_right _ (by simp)
      · have hk2 : k ∈ ks := by
          rcases List.mem_cons.mp hk with hc | hc
          · exact absurd hc.symm hkk
          · exact hc
        cases hgi : get_item s now k1 with
        | mk fst snd =>
            have hbase3 : ∀ k2, liveTags snd now k2 = liveTags s0 now k2 := by
              intro k2
              have := hbase2 k2
              rw [hgi] at this
              exact this
            cases fst with
            | none => exact ih snd acc hbase3 hk2
            | some it =>
                by_cases hqa : q.all (fun t => decide (t ∈ it.tags)) = true
                · simp only [hqa, if_pos]
                  exact ih snd _ hbase3 hk2
                · simp only [hqa]
                  simp
                  exact ih snd acc hbase3 hk2

/-- The `match_any` inner scan leaves the liveness/tags observables and the
tag index unchanged. -/
theorem searchTagsAnyInner_preserves (now : Nat) :
    ∀ (ks : List String) (s : PadState)
      (acc : List (String × SketchPadItem)),
    (searchTagsAnyInner now ks s acc).2.tagIndex = s.tagIndex ∧
    (∀ k1, liveTags (searchTagsAnyInner now ks s acc).2 now k1
      = liveTags s now k1) := by
  intro ks
  induction ks with
  | nil => intro s acc; exact ⟨rfl, fun _ => rfl⟩
  | cons k ks ih =>
      intro s acc
      unfold searchTagsAnyInner
      cases hgi : get_item s now k with
      | mk fst snd =>
          have hti : snd.tagIndex = s.tagIndex := by
            have := get_item_tagIndex s now k
            rw [hgi] at this
            exact this
          have hlt : ∀ k1, liveTags snd now k1 = liveTags s now k1 := by
            intro k1
            have := get_item_liveTags s now k k1
            rw [hgi] at this
            exact this
          cases fst with
          | none =>
              exact ⟨(ih snd acc).1.trans hti,
                fun k1 => ((ih snd acc).2 k1).trans (hlt k1)⟩
          | some it =>
              by_cases hacc : (k, it) ∈ acc
              · simp only [hacc, if_pos]
                exact ⟨(ih snd acc).1.trans hti,
                  fun k1 => ((ih snd acc).2 k1).trans (hlt k1)⟩
              · simp only [hacc]
                simp
                exact ⟨(ih snd _).1.trans hti,
                  fun k1 => ((ih snd _).2 k1).trans (hlt k1)⟩

/-- Accumulated results survive the rest of the `match_any` inner scan. -/
theorem searchTagsAnyInner_acc_mono (now : Nat) :
    ∀ (ks : List String) (s : PadState)
      (acc : List (String × SketchPadItem)) (x : String × SketchPadItem),
    x ∈ acc → x ∈ (searchTagsAnyInner now ks s acc).1 := by
  intro ks
  induction ks with
  | nil => intro s acc x hx; exact hx
  | cons k ks ih =>
      intro s acc x hx
      unfold searchTagsAnyInner
      cases hgi : get_item s now k with
      | mk fst snd =>
          cases fst with
          | none => exact ih snd acc x hx
          | some it =>
              by_cases hacc : (k, it) ∈ acc
              · simp only [hacc, if_pos]
                exact ih snd acc x hx
              · simp only [hacc]
                simp
                exact ih snd _ x (List.mem_append_left _ hx)

/-- Soundness of the `match_any` inner scan: every produced pair beyond the
accumulator names a candidate key that is live with exactly the recorded
tags. -/
theorem searchTagsAnyInner_sound (now : Nat) (s0 : PadState) :
    ∀ (ks : List String) (s : PadState)
      (acc : List (String × SketchPadItem)),
    (∀ k1, liveTags s now k1 = liveTags s0 now k1) →
    ∀ x, x ∈ (searchTagsAnyInner now ks s acc).1 →
      x ∈ acc ∨ (x.1 ∈ ks ∧ liveTags s0 now x.1 = some x.2.tags) := by
  intro ks
  induction ks with
  | nil => intro s acc _ x hx; exact Or.inl hx
  | cons k ks ih =>
      intro s acc hbase x hx
      unfold searchTagsAnyInner at hx
      cases hgi : get_item s now k with
      | mk fst snd =>
          rw [hgi] at hx
          have hbase2 : ∀ k1, liveTags snd now k1 = liveTags s0 now k1 := by
            intro k1
            have := (get_item_liveTags s now k k1).trans (hbase k1)
            rw [hgi] at this
            exact this
          cases fst with
          | none =>
              rcases ih snd acc hbase2 x hx with hl | ⟨hm, hg⟩
              · exact Or.inl hl
              · exact Or.inr ⟨List.mem_cons_of_mem k hm, hg⟩
          | some it =>
              have htags := get_item_fst_tags s now k
              rw [hgi] at htags
              simp only [Option.map_some] at htags
              by_cases hacc : (k, it) ∈ acc
              · simp only [hacc, if_pos] at hx
                rcases ih snd acc hbase2 x hx with hl | ⟨hm, hg⟩
                · exact Or.inl hl
                · exact Or.inr ⟨List.mem_cons_of_mem k hm, hg⟩
              · simp only [hacc] at hx
                simp at hx
                rcases ih snd _ hbase2 x hx with hl | ⟨hm, hg⟩
                · rcases List.mem_append.mp hl with hal | hnew
                  · exact Or.inl hal
                  · have hxeq : x = (k, it) := by simpa using hnew
                    subst hxeq
                    refine Or.inr ⟨List.mem_cons_self k ks, ?_⟩
                    rw [← hbase k]
                    exact htags.symm
                · exact Or.inr ⟨List.mem_cons_of_mem k hm, hg⟩

/-- Completeness of the `match_any` inner scan: a live candidate key ends up
in the results. -/
theorem searchTagsAnyInner_complete (now : Nat) (s0 : PadState) (k : String)
    (T : List String) (hT : liveTags s0 now k = some T) :
    ∀ (ks : List String) (s : PadState)
      (acc : List (String × SketchPadItem)),
    (∀ k1, liveTags s now k1 = liveTags s0 now k1) →
    k ∈ ks →
    ∃ it1, (k, it1) ∈ (searchTagsAnyInner now ks s acc).1 := by
  intro ks
  induction ks with
  | nil => intro s acc _ hk; exact absurd hk (List.not_mem_nil k)
  | cons k1 ks ih =>
      intro s acc hbase hk
      unfold searchTagsAnyInner
      by_cases hkk : k1 = k
      · subst hkk
        have htags := get_item_fst_tags s now k1
        rw [hbase k1, hT] at htags
        obtain ⟨it1, hfst, _⟩ := Option.map_eq_some'.mp htags
        cases hgi : get_item s now k1 with
        | mk fst snd =>
            rw [hgi] at hfst
            cases fst with
            | none => simp at hfst
            | some it2 =>
                have hit2 : it2 = it1 := by simpa using hfst
                subst hit2
                by_cases hacc : (k1, it2) ∈ acc
                · simp only [hacc, if_pos]
                  exact ⟨it2, searchTagsAnyInner_acc_mono now ks snd acc _ hacc⟩
                · simp only [hacc]
                  simp
                  refine ⟨it2, ?_⟩
                  apply searchTagsAnyInner_acc_mono
                  exact List.mem_append_right _ (by simp)
      · have hk2 : k ∈ ks := by
          rcases List.mem_cons.mp hk with hc | hc
          · exact absurd hc.symm hkk
          · exact hc
        cases hgi : get_item s now k1 with
        | mk fst snd =>
            have hbase3 : ∀ k2, liveTags snd now k2 = liveTags s0 now k2 := by
              intro k2
              have := (get_item_liveTags s now k1 k2).trans (hbase k2)
              rw [hgi] at this
              exact this
            cases fst with
            | none => exact ih snd acc hbase3 hk2
            | some it =>
                by_cases hacc : (k1, it) ∈ acc
                · simp only [hacc, if_pos]
                  exact ih snd acc hbase3 hk2
                · simp only [hacc]
                  simp
                  exact ih snd _ hbase3 hk2

/-- Accumulated results survive the rest of the `match_any` outer scan. -/
theorem searchTagsAnyGo_acc_mono (now : Nat) :
    ∀ (ts : List String) (s : PadState)
      (acc : List (String × SketchPadItem)) (x : String × SketchPadItem),
    x ∈ acc → x ∈ (searchTagsAnyGo now ts s acc).1 := by
  intro ts
  induction ts with
  | nil => intro s acc x hx; exact hx
  | cons t ts ih =>
      intro s acc x hx
      unfold searchTagsAnyGo
      exact ih _ _ x (searchTagsAnyInner_acc_mono now (smembers s t) s acc x hx)

/-- Soundness of the `match_any` outer scan: every produced pair beyond the
accumulator is indexed under one of the query tags and live with exactly the
recorded tags. -/
theorem searchTagsAnyGo_sound (now : Nat) (s0 : PadState) :
    ∀ (ts : List String) (s : PadState)
      (acc : List (String × SketchPadItem)),
    (s.tagIndex = s0.tagIndex) →
    (∀ k1, liveTags s now k1 = liveTags s0 now k1) →
    ∀ x, x ∈ (searchTagsAnyGo now ts s acc).1 →
      x ∈ acc ∨ ∃ t ∈ ts, x.1 ∈ smembers s0 t
        ∧ liveTags s0 now x.1 = some x.2.tags := by
  intro ts
  induction ts with
  | nil => intro s acc _ _ x hx; exact Or.inl hx
  | cons t ts ih =>
      intro s acc hti hbase x hx
      unfold searchTagsAnyGo at hx
      have hsm : smembers s t = smembers s0 t := by
        unfold smembers
        rw [hti]
      have hpres := searchTagsAnyInner_preserves now (smembers s t) s acc
      have hti1 : (searchTagsAnyInner now (smembers s t) s acc).2.tagIndex
          = s0.tagIndex := hpres.1.trans hti
      have hbase1 : ∀ k1,
          liveTags (searchTagsAnyInner now (smembers s t) s acc).2 now k1
            = liveTags s0 now k1 :=
        fun k1 => (hpres.2 k1).trans (hbase k1)
      rcases ih _ _ hti1 hbase1 x hx with hacc1 | ⟨t1, ht1, hm, hg⟩
      · rcases searchTagsAnyInner_sound now s0 (smembers s t) s acc hbase x
            hacc1 with hl | ⟨hm, hg⟩
        · exact Or.inl hl
        · refine Or.inr ⟨t, List.mem_cons_self t ts, ?_, hg⟩
          rw [← hsm]
          exact hm
      · exact Or.inr ⟨t1, List.mem_cons_of_mem t ht1, hm, hg⟩

/-- Completeness of the `match_any` outer scan: a key live with some queried
tag in its index entry ends up in the results. -/
theorem searchTagsAnyGo_complete (now : Nat) (s0 : PadState) (k : String)
    (T : List String) (hT : liveTags s0 now k = some T) :
    ∀ (ts : List String) (s : PadState)
      (acc : List (String × SketchPadItem)) (t : String),
    (s.tagIndex = s0.tagIndex) →
    (∀ k1, liveTags s now k1 = liveTags s0 now k1) →
    t ∈ ts → k ∈ smembers s0 t →
    ∃ it1, (k, it1) ∈ (searchTagsAnyGo now ts s acc).1 := by
  intro ts
  induction ts with
  | nil => intro s acc t _ _ ht _; exact absurd ht (List.not_mem_nil t)
  | cons t1 ts ih =>
      intro s acc t hti hbase ht hk
      unfold searchTagsAnyGo
      have hsm : smembers s t1 = smembers s0 t1 := by
        unfold smembers
        rw [hti]
      have hpres := searchTagsAnyInner_preserves now (smembers s t1) s acc
      have hti1 : (searchTagsAnyInner now (smembers s t1) s acc).2.tagIndex
          = s0.tagIndex := hpres.1.trans hti
      have hbase1 : ∀ k1,
          liveTags (searchTagsAnyInner now (smembers s t1) s acc).2 now k1
            = liveTags s0 now k1 :=
        fun k1 => (hpres.2 k1).trans (hbase k1)
      rcases List.mem_cons.mp ht with hc | hc
      · subst hc
        obtain ⟨it1, hmem⟩ := searchTagsAnyInner_complete now s0 k T hT
          (smembers s t) s acc hbase (by rw [hsm]; exact hk)
        exact ⟨it1, searchTagsAnyGo_acc_mono now ts _ _ _ hmem⟩
      · exact ih _ _ t hti1 hbase1 hc hk

/-- C6 (amended): on a pad whose tag index is consistent with its stored
items (true until some key's tags are changed by an overwrite — the source
never cleans the old tags), a live item is returned by
`search_by_tags(Q, match_all := true)` for non-empty Q exactly when Q is a
subset of its tags, and by `search_by_tags(Q, match_all := false)` exactly
when Q meets its tags; `match_all` with an empty query returns nothing
(rather than everything). -/
theorem search_by_tags_correct (s : PadState) (now : Nat) (q : List String)
    (k : String) (it : SketchPadItem) (exp : Option Nat)
    (hc : tagConsistent s)
    (hl : lookupAssoc s.items k = some (it, exp))
    (he : entryLive now exp = true) :
    (q ≠ [] →
      ((∃ it1, (k, it1) ∈ (search_by_tags s now q true).1) ↔
        ∀ t ∈ q, t ∈ it.tags)) ∧
    ((∃ it1, (k, it1) ∈ (search_by_tags s now q false).1) ↔
      ∃ t ∈ q, t ∈ it.tags) ∧
    (search_by_tags s now [] true).1 = [] := by
  have hT : liveTags s now k = some it.tags := by
    unfold liveTags
    rw [hl]
    simp [he]
  refine ⟨?_, ?_, rfl⟩
  · intro hq
    cases q with
    | nil => exact absurd rfl hq
    | cons t0 qs =>
        have hform : (search_by_tags s now (t0 :: qs) true).1
            = (searchTagsAllGo now (t0 :: qs) (smembers s t0) s []).1 := rfl
        rw [hform]
        constructor
        · rintro ⟨it1, hmem⟩
          rcases searchTagsAllGo_sound now (t0 :: qs) s (smembers s t0) s []
              (fun _ => rfl) (k, it1) hmem with habs | ⟨hlt, hall⟩
          · simp at habs
          · have htageq : it1.tags = it.tags := by
              have := hlt.symm.trans hT
              exact Option.some.inj this
            intro t htq
            rw [← htageq]
            have := List.all_eq_true.mp hall t htq
            simpa using this
        · intro htags
          have ht0 : t0 ∈ it.tags := htags t0 (List.mem_cons_self t0 qs)
          have hmem : k ∈ smembers s t0 := (hc t0 k).mpr ⟨(it, exp), hl, ht0⟩
          have hall : (t0 :: qs).all (fun t => decide (t ∈ it.tags)) = true := by
            rw [List.all_eq_true]
            intro t htq
            simpa using htags t htq
          exact searchTagsAllGo_complete now (t0 :: qs) s k it.tags hT hall
            (smembers s t0) s [] (fun _ => rfl) hmem
  · have hform : (search_by_tags s now q false).1
        = (searchTagsAnyGo now q s []).1 := rfl
    rw [hform]
    constructor
    · rintro ⟨it1, hmem⟩
      rcases searchTagsAnyGo_sound now s q s [] rfl (fun _ => rfl) (k, it1)
          hmem with habs | ⟨t, htq, hsm, _⟩
      · simp at habs
      · obtain ⟨p, hp, htp⟩ := (hc t k).mp hsm
        have hpe : p = (it, exp) := by
          rw [hl] at hp
          exact (Option.some.inj hp).symm
        subst hpe
        exact ⟨t, htq, htp⟩
    · rintro ⟨t, htq, htag⟩
      have hmem : k ∈ smembers s t := (hc t k).mpr ⟨(it, exp), hl, htag⟩
      exact searchTagsAnyGo_complete now s k it.tags hT q s [] t rfl
        (fun _ => rfl) htq hmem

/-- The empty pad has a consistent tag index. -/
theorem tagConsistent_empty : tagConsistent emptyPad := by
  intro t k
  simp [smembers, lookupAssoc, emptyPad]

/-- Membership in a tag set key after one `SADD`. -/
theorem saddTag_mem (idx : List (String × List String)) (t0 key t k1 : String) :
    (k1 ∈ (lookupAssoc (saddTag idx t0 key) t).getD []) ↔
      (k1 ∈ (lookupAssoc idx t).getD []) ∨ (t = t0 ∧ k1 = key) := by
  unfold saddTag
  by_cases hmem : key ∈ (lookupAssoc idx t0).getD []
  · simp only [hmem, if_pos]
    constructor
    · exact Or.inl
    · rintro (h | ⟨ht, hk⟩)
      · exact h
      · subst ht
        subst hk
        exact hmem
  · rw [if_neg hmem]
    by_cases ht : t = t0
    · subst ht
      rw [lookup_insert_self]
      simp only [Option.getD_some, List.mem_append, List.mem_singleton]
      constructor
      · rintro (h | h)
        · exact Or.inl h
        · exact Or.inr ⟨trivial, h⟩
      · rintro (h | ⟨_, h⟩)
        · exact Or.inl h
        · exact Or.inr h
    · rw [lookup_insert_ne _ _ _ _ ht]
      simp [ht]

/-- Membership in a tag set key after the `SADD` loop of one write. -/
theorem foldl_saddTag_mem (key : String) :
    ∀ (tags : List String) (idx : List (String × List String)) (t k1 : String),
    (k1 ∈ (lookupAssoc (tags.foldl (fun ix t1 => saddTag ix t1 key) idx) t).getD [])
      ↔ (k1 ∈ (lookupAssoc idx t).getD []) ∨ (t ∈ tags ∧ k1 = key) := by
  intro tags
  induction tags with
  | nil => intro idx t k1; simp
  | cons t1 ts ih =>
      intro idx t k1
      show (k1 ∈ (lookupAssoc (ts.foldl _ (saddTag idx t1 key)) t).getD []) ↔ _
      rw [ih (saddTag idx t1 key) t k1, saddTag_mem idx t1 key t k1]
      constructor
      · rintro ((h | ⟨ht, hk⟩) | ⟨ht, hk⟩)
        · exact Or.inl h
        · exact Or.inr ⟨by simp [ht], hk⟩
        · exact Or.inr ⟨List.mem_cons_of_mem t1 ht, hk⟩
      · rintro (h | ⟨ht, hk⟩)
        · exact Or.inl (Or.inl h)
        · rcases List.mem_cons.mp ht with hc | hc
          · exact Or.inl (Or.inr ⟨hc, hk⟩)
          · exact Or.inr ⟨hc, hk⟩

/-- A write of a fresh key preserves tag-index consistency (this is exactly
the situation the amended C6 assumes: no overwrite has changed any key's
tags). -/
theorem tagConsistent_set_item_fresh (s : PadState) (now : Nat) (key : String)
    (value : PadValue) (ttl : Option Nat) (summary : Option String)
    (tags : List String) (hc : tagConsistent s)
    (hfresh : lookupAssoc s.items key = none) :
    tagConsistent (set_item s now key value ttl summary tags).2 := by
  intro t k1
  have hsm : (k1 ∈ smembers (set_item s now key value ttl summary tags).2 t)
      ↔ (k1 ∈ smembers s t) ∨ (t ∈ tags ∧ k1 = key) := by
    show (k1 ∈ (lookupAssoc (if tags.isEmpty then s.tagIndex
        else tags.foldl (fun idx t1 => saddTag idx t1 key) s.tagIndex) t).getD []) ↔ _
    by_cases hemp : tags.isEmpty
    · have htags : tags = [] := List.isEmpty_iff.mp hemp
      subst htags
      simp [smembers]
    · simp only [hemp]
      exact foldl_saddTag_mem key tags s.tagIndex t k1
  rw [hsm]
  by_cases hk1 : k1 = key
  · subst hk1
    have hnotold : ¬ (k1 ∈ smembers s t) := by
      intro hmem
      obtain ⟨p, hp, _⟩ := (hc t k1).mp hmem
      rw [hfresh] at hp
      exact Option.noConfusion hp
    constructor
    · rintro (h | ⟨ht, _⟩)
      · exact absurd h hnotold
      · exact ⟨({ value := value, timestamp := now, summary := summary, expires_at := if ttlTruthy ttl then some (now + ttl.getD 0) else none, access_count := 0, last_accessed := some now, tags := tags, content_type := "text", content_hash := some (getContentHash value) }, if ttlTruthy ttl then some (now + ttl.getD 0) else none), by rw [set_item_state, lookup_insert_self], ht⟩
    · rintro ⟨p, hp, htp⟩
      rw [set_item_state, lookup_insert_self] at hp
      have hpe := (Option.some.inj hp).symm
      subst hpe
      exact Or.inr ⟨htp, rfl⟩
  · have hlk : lookupAssoc (set_item s now key value ttl summary tags).2.items k1
        = lookupAssoc s.items k1 := by
      rw [set_item_state, lookup_insert_ne _ _ _ _ hk1]
    constructor
    · rintro (h | ⟨_, hk⟩)
      · obtain ⟨p, hp, htp⟩ := (hc t k1).mp h
        exact ⟨p, by rw [hlk]; exact hp, htp⟩
      · exact absurd hk hk1
    · rintro ⟨p, hp, htp⟩
      rw [hlk] at hp
      exact Or.inl ((hc t k1).mpr ⟨p, hp, htp⟩)

/-- C6 (witness): a pad built by two fresh tagged writes — "a" tagged
code/urgent, "b" tagged code — queried with the full tag pair in both
modes. -/
theorem search_by_tags_correct_witness :
    ((["code", "urgent"] : List String) ≠ [] →
      ((∃ it1, ("a", it1) ∈ (search_by_tags (set_item (set_item emptyPad 0 "a" (PadValue.vStr "x") none none ["code", "urgent"]).2 1 "b" (PadValue.vStr "y") none none ["code"]).2 2 ["code", "urgent"] true).1) ↔
        ∀ t ∈ (["code", "urgent"] : List String), t ∈ ({ value := PadValue.vStr "x", timestamp := 0, summary := none, expires_at := none, access_count := 0, last_accessed := some 0, tags := ["code", "urgent"], content_type := "text", content_hash := some (getContentHash (PadValue.vStr "x")) } : SketchPadItem).tags)) ∧
    ((∃ it1, ("a", it1) ∈ (search_by_tags (set_item (set_item emptyPad 0 "a" (PadValue.vStr "x") none none ["code", "urgent"]).2 1 "b" (PadValue.vStr "y") none none ["code"]).2 2 ["code", "urgent"] false).1) ↔
      ∃ t ∈ (["code", "urgent"] : List String), t ∈ ({ value := PadValue.vStr "x", timestamp := 0, summary := none, expires_at := none, access_count := 0, last_accessed := some 0, tags := ["code", "urgent"], content_type := "text", content_hash := some (getContentHash (PadValue.vStr "x")) } : SketchPadItem).tags) ∧
    (search_by_tags (set_item (set_item emptyPad 0 "a" (PadValue.vStr "x") none none ["code", "urgent"]).2 1 "b" (PadValue.vStr "y") none none ["code"]).2 2 [] true).1 = [] :=
  search_by_tags_correct
    (set_item (set_item emptyPad 0 "a" (PadValue.vStr "x") none none ["code", "urgent"]).2 1 "b" (PadValue.vStr "y") none none ["code"]).2
    2 ["code", "urgent"] "a"
    ({ value := PadValue.vStr "x", timestamp := 0, summary := none, expires_at := none, access_count := 0, last_accessed := some 0, tags := ["code", "urgent"], content_type := "text", content_hash := some (getContentHash (PadValue.vStr "x")) } : SketchPadItem)
    none
    (tagConsistent_set_item_fresh
      (set_item emptyPad 0 "a" (PadValue.vStr "x") none none ["code", "urgent"]).2
      1 "b" (PadValue.vStr "y") none none ["code"]
      (tagConsistent_set_item_fresh emptyPad 0 "a" (PadValue.vStr "x") none
        none ["code", "urgent"] tagConsistent_empty rfl)
      (by decide))
    (by decide) rfl

/-- C6 (counterexample): two failures of the claim as stated.  First, with
`match_all := true` and the empty query, a live item (whose tag set trivially
includes every element of the empty query) is not returned — the result is
empty.  Second, after the item under "k" is overwritten with tags ["b"], the
stale index entry for "a" still lists "k", so the `match_all := false` query
["a"] returns the item although its tag set ["b"] does not intersect the
query. -/
theorem search_by_tags_counterexample :
    ((search_by_tags (set_item emptyPad 0 "k" (PadValue.vStr "x") none none ["a"]).2 1 [] true).1 = [] ∧
      exists_key (set_item emptyPad 0 "k" (PadValue.vStr "x") none none ["a"]).2 1 "k" = true) ∧
    ((search_by_tags (set_item (set_item emptyPad 0 "k" (PadValue.vStr "x") none none ["a"]).2 1 "k" (PadValue.vStr "y") none none ["b"]).2 2 ["a"] false).1.map
        (fun p => p.2.tags) = [["b"]] ∧
      ("a" ∉ (["b"] : List String))) := by decide
